import Mathlib

/-!
Verification of the PR-diff-export content script.

The development shallowly embeds `src/content.ts` of the extension:
pure string helpers (`getFileExtension`, `getBaseName`), the DOM-state
classification of one file section (`processDiff` with its `isBinaryFile`
and `isNewFile` helpers and the `tryLoadLargeDiff` retry sub-protocol),
the Markdown formatter (`createMarkdownContent`), the page-loader
convergence loop (`loadAllDiffs`), the archive-building loop
(`exportDiffs`) and the UI reset on every exit path
(`handleExportClick`).  DOM elements are modelled by records of the
observable features the script queries; timed waits are dropped (they
only suspend, never branch); the mutable DOM read across the retry loop
is modelled as a function from the attempt index to the observed state.
-/

namespace PRDiff

/-- JS `str.split(sep)` for a one-character separator, on the character
list of the string.  Mirrors the semantics of `filePath.split('.')` /
`filePath.split('/')`: the result is never empty, and splitting a string
without the separator yields the one-element list. -/
def splitChar (sep : Char) : List Char → List (List Char)
  | [] => [[]]
  | c :: cs =>
    match splitChar sep cs with
    | [] => [[]]
    | g :: gs => if c = sep then [] :: g :: gs else (c :: g) :: gs

/-- `getFileExtension` from `content.ts`:
`const parts = filePath.split('.'); return parts.length > 1 ? parts[parts.length - 1] : '';` -/
def getFileExtension (filePath : String) : String :=
  let parts := splitChar '.' filePath.toList
  if parts.length > 1 then String.mk (parts.getLastD []) else ""

/-- `getBaseName` from `content.ts`:
`return filePath.split('/').pop() || filePath;` — the popped last part is
returned unless it is falsy (the empty string), in which case the whole
path is returned. -/
def getBaseName (filePath : String) : String :=
  let parts := splitChar '/' filePath.toList
  let lastPart := String.mk (parts.getLastD [])
  if lastPart = "" then filePath else lastPart

/-- The `DiffHunk` record of `content.ts`.  The three optional flags are
modelled as `Bool` with default `false`: in the script an absent flag is
`undefined`, which every consumer treats exactly like `false`. -/
structure DiffHunk where
  before : String
  after : String
  filePath : String
  extension : String
  baseName : String
  tooLarge : Bool := false
  notInline : Bool := false
  isNewFile : Bool := false
  deriving DecidableEq, Repr

/-- `createMarkdownContent` from `content.ts`, verbatim branch for branch. -/
def createMarkdownContent (diff : DiffHunk) : String :=
  if diff.notInline then
    "# " ++ diff.baseName ++ "\n\nDiff not available inline. Please view the file directly on GitHub."
  else if diff.tooLarge then
    "# " ++ diff.baseName ++ "\n\nDiff too large to display on GitHub. Not available for export."
  else if diff.isNewFile then
    "# " ++ diff.baseName ++ "\n\n## Before\nThis file did not exist before.\n\n## After\n```" ++
      diff.extension ++ "\n" ++ diff.after ++ "\n```\n"
  else if diff.before = "" && diff.after = "" then
    "# " ++ diff.baseName ++ "\n\nNo textual changes, file is binary, or too large to display."
  else
    "# " ++ diff.baseName ++ "\n\n## Before\n```" ++ diff.extension ++ "\n" ++ diff.before ++
      "\n```\n\n## After\n```" ++ diff.extension ++ "\n" ++ diff.after ++ "\n```\n"

/-- Substring after the last occurrence of `sep`, written directly from
the specification wording ("substring after the final `.` / `/`"),
independent of the split-based implementation. -/
def suffixAfterLast (sep : Char) : List Char → List Char
  | [] => []
  | c :: cs =>
    if sep ∈ cs then suffixAfterLast sep cs
    else if c = sep then cs
    else c :: suffixAfterLast sep cs

theorem splitChar_ne_nil (sep : Char) (l : List Char) : splitChar sep l ≠ [] := by
  cases l with
  | nil => simp [splitChar]
  | cons c cs =>
    simp only [splitChar]
    cases splitChar sep cs with
    | nil => simp
    | cons g gs =>
      by_cases h : c = sep <;> simp [h]

theorem splitChar_length_gt_one_iff (sep : Char) (l : List Char) :
    (splitChar sep l).length > 1 ↔ sep ∈ l := by
  induction l with
  | nil => simp [splitChar]
  | cons c cs ih =>
    simp only [splitChar]
    rcases hs : splitChar sep cs with _ | ⟨g, gs⟩
    · exact absurd hs (splitChar_ne_nil sep cs)
    · by_cases h : c = sep
      · subst h
        simp [List.mem_cons, Nat.succ_lt_succ_iff]
      · rw [hs] at ih
        simp only [if_neg h, List.length_cons] at ih ⊢
        rw [List.mem_cons]
        constructor
        · intro hl
          exact Or.inr (ih.mp hl)
        · intro hl
          rcases hl with hl | hl
          · exact absurd hl.symm h
          · exact ih.mpr hl

/-- JS `haystack.includes(needle)`: `needle` occurs as a contiguous
substring of `haystack` (always true for the empty needle). -/
def jsIncludes (haystack needle : String) : Bool :=
  haystack.toList.tails.any (fun t => needle.toList.isPrefixOf t)

/-- JS `str.toLowerCase()` (ASCII-faithful). -/
def jsToLower (s : String) : String :=
  String.mk (s.toList.map Char.toLower)

/-- JS `str.trim()`: strip leading and trailing whitespace. -/
def jsTrim (s : String) : String :=
  String.mk (((s.toList.dropWhile Char.isWhitespace).reverse.dropWhile Char.isWhitespace).reverse)

/-- The `.file-info, .file-header` element of a section, as observed by
`isNewFile`: the text of its first `.Label--success, .Label` descendant
(absent → `none`) and its own `textContent`. -/
structure InfoElem where
  labelText : Option String
  text : Option String

/-- `isNewFile` from `content.ts`: no info element → `false`; otherwise
the label text (lower-cased, `''` when absent) containing `'new file'` or
`'added'`, or else the info text (lower-cased) containing `'new file'`. -/
def isNewFile (info? : Option InfoElem) : Bool :=
  match info? with
  | none => false
  | some info =>
    let label := (info.labelText.map jsToLower).getD ""
    if jsIncludes label "new file" || jsIncludes label "added" then true
    else if (info.text.map (fun t => jsIncludes (jsToLower t) "new file")).getD false then true
    else false

/-- The load-diff keyword set of `tryLoadLargeDiff`. -/
def loadKeywords : List String :=
  ["load diff", "view file", "show diff", "display the diff", "load this diff", "show this diff"]

/-- A section's DOM state as observed during one attempt of
`tryLoadLargeDiff`: the texts of its `button, summary` elements, the
texts of its `a` elements, the counts of `.blob-code-deletion` /
`.blob-code-addition` elements, and the section's `textContent`. -/
structure SectionView where
  buttonTexts : List String
  linkTexts : List String
  deletionCount : Nat
  additionCount : Nat
  sectionText : String

/-- An element's text matches a load-diff keyword (case-insensitive
substring, as in `txt.includes(k)` after `toLowerCase`). -/
def matchesLoadKeyword (txt : String) : Bool :=
  loadKeywords.any (fun k => jsIncludes (jsToLower txt) k)

/-- Some `button, summary` element matches a load keyword. -/
def SectionView.hasLoadButton (v : SectionView) : Bool :=
  v.buttonTexts.any matchesLoadKeyword

/-- Some `a` element matches a load keyword. -/
def SectionView.hasLoadLink (v : SectionView) : Bool :=
  v.linkTexts.any matchesLoadKeyword

/-- The result values of `tryLoadLargeDiff`. -/
inductive LoadResult
  | loaded
  | tooLarge
  | notInline
  deriving DecidableEq, Repr

/-- The retry loop body of `tryLoadLargeDiff` (`for attempt = 0..4`).
The DOM mutates between attempts (button clicks and timed waits), so the
state is observed through `env : Nat → SectionView`, indexed by the
attempt number.  Branch for branch from the source: a keyword-matching
link with no keyword-matching button/summary breaks with `notInline`; a
button is clicked and the loop retries; otherwise present
deletion/addition lines break with `loaded`; a too-large message breaks
with nothing set (falling through to `tooLarge`); exhausting the
attempts yields `tooLarge`. -/
def tryLoadAux (env : Nat → SectionView) : Nat → Nat → LoadResult
  | _, 0 => .tooLarge
  | attempt, fuel + 1 =>
    let v := env attempt
    if !v.hasLoadButton && v.hasLoadLink then .notInline
    else if v.hasLoadButton then tryLoadAux env (attempt + 1) fuel
    else if v.deletionCount > 0 || v.additionCount > 0 then .loaded
    else if jsIncludes (jsToLower v.sectionText) "diff is too large to display" then .tooLarge
    else tryLoadAux env (attempt + 1) fuel

/-- `tryLoadLargeDiff` from `content.ts`: at most 5 attempts. -/
def tryLoadLargeDiff (env : Nat → SectionView) : LoadResult :=
  tryLoadAux env 0 5

/-- One file-diff section (`.file` element) as observed by
`processDiff`.  Fields in the order the script reads them; the
`post…` fields are the re-reads after the load sub-protocol ran (the DOM
may have changed by then). -/
structure FileSection where
  filePathText : Option String
  hasBinaryMarker : Bool
  info : Option InfoElem
  deletionLines : List String
  additionLines : List String
  allLines : List String
  loadEnv : Nat → SectionView
  postDeletionLines : List String
  postAdditionLines : List String
  postSectionText : String

/-- `isBinaryFile` from `content.ts`: the section has a
`.diff-view-binary` or `.rendered` descendant. -/
def isBinaryFile (file : FileSection) : Bool :=
  file.hasBinaryMarker

/-- JS `lines.join('\n')`. -/
def joinLines (lines : List String) : String :=
  String.intercalate "\n" lines

/-- `processDiff` from `content.ts`.  Skips (returns `none`) when the
`.file-info a` text is absent or trims to the empty string; the binary
branch returns a record with empty texts and no flags; the new-file
branch fills `after` from all `.blob-code` lines; otherwise, when both
line reads are empty, the load sub-protocol runs, the lines are re-read,
and the flags are derived from its result (the too-large flag also
requires a confirming too-large message in the section text). -/
def processDiff (file : FileSection) : Option DiffHunk :=
  match file.filePathText.map jsTrim with
  | none => none
  | some fp =>
    if fp = "" then none
    else if isBinaryFile file then
      some { before := "", after := "", filePath := fp,
             extension := getFileExtension fp, baseName := getBaseName fp }
    else if isNewFile file.info then
      some { before := "This file did not exist before.",
             after := joinLines file.allLines,
             filePath := fp, extension := getFileExtension fp, baseName := getBaseName fp,
             tooLarge := false, notInline := false, isNewFile := true }
    else if file.deletionLines.isEmpty && file.additionLines.isEmpty then
      let loadResult := tryLoadLargeDiff file.loadEnv
      some { before := joinLines file.postDeletionLines,
             after := joinLines file.postAdditionLines,
             filePath := fp, extension := getFileExtension fp, baseName := getBaseName fp,
             tooLarge := decide (loadResult = LoadResult.tooLarge) &&
               (jsIncludes (jsToLower file.postSectionText) "diff is too large to display" ||
                jsIncludes (jsToLower file.postSectionText) "too large to render"),
             notInline := decide (loadResult = LoadResult.notInline),
             isNewFile := false }
    else
      some { before := joinLines file.deletionLines,
             after := joinLines file.additionLines,
             filePath := fp, extension := getFileExtension fp, baseName := getBaseName fp,
             tooLarge := false, notInline := false, isNewFile := false }

/-- The iteration ceiling of `loadAllDiffs` (`const maxTries = 50`). -/
def maxTries : Nat := 50

/-- The `while (tries < maxTries)` loop of `loadAllDiffs`, counting the
number of loop-body executions.  `counts i` is the `.file` section count
observed on iteration `i` (the DOM grows as content loads); the state is
`lastFileCount`, `stableCount` and the remaining tries (`fuel =
maxTries - tries`).  The body recounts, updates the stability streak,
and breaks once the streak reaches 3. -/
def loadAllDiffsAux (counts : Nat → Nat) : Nat → Nat → Nat → Nat → Nat
  | _, _, _, 0 => 0
  | lastFileCount, stableCount, i, fuel + 1 =>
    let files := counts i
    let stable' := if files = lastFileCount then stableCount + 1 else 0
    if 3 ≤ stable' then 1
    else 1 + loadAllDiffsAux counts files stable' (i + 1) fuel

/-- Number of iterations `loadAllDiffs` executes, starting from
`lastFileCount = 0`, `stableCount = 0`, `tries = 0`. -/
def loadAllDiffsIterations (counts : Nat → Nat) : Nat :=
  loadAllDiffsAux counts 0 0 0 maxTries

/-- `zip.folder('diffs').file(name, content)`: a new name is appended,
an existing name keeps its position and its content is overwritten. -/
def addFile (entries : List (String × String)) (name content : String) :
    List (String × String) :=
  if entries.any (fun e => e.1 = name) then
    entries.map (fun e => if e.1 = name then (name, content) else e)
  else entries ++ [(name, content)]

/-- The archive contents produced by the `exportDiffs` loop: sections in
document order, each processed record written as
`diffs/<baseName>.md` with the formatter's output, skipped sections
contributing nothing. -/
def exportEntries (sections : List FileSection) : List (String × String) :=
  sections.foldl
    (fun acc s =>
      match processDiff s with
      | none => acc
      | some d => addFile acc ("diffs/" ++ d.baseName ++ ".md") (createMarkdownContent d))
    []

/-- `s.filePathText` is present and trims to a non-empty path, i.e.
`processDiff` will not skip the section. -/
def validPath (s : FileSection) : Bool :=
  match s.filePathText with
  | none => false
  | some t => jsTrim t ≠ ""

/-- The record `processDiff` produces for a section with a valid path
(dummy record otherwise). -/
def recordOf (s : FileSection) : DiffHunk :=
  (processDiff s).getD
    { before := "", after := "", filePath := "", extension := "", baseName := "" }

/-- The UI state touched by the export run: the trigger button's
`disabled` flag, the progress element's visibility and text, and whether
the error `alert` fired. -/
structure UIState where
  buttonDisabled : Bool
  progressVisible : Bool
  progressText : String
  alerted : Bool
  deriving DecidableEq, Repr

/-- `updateProgress`: shows the progress element and sets its text. -/
def updateProgress (st : UIState) (msg : String) : UIState :=
  { st with progressVisible := true, progressText := msg }

/-- `Math.round((current / total) * 100)` when `total > 0`, else `0`,
as computed by `updateProgress` (halves round up, as in JS). -/
def roundPct (current total : Nat) : Nat :=
  if total > 0 then (current * 100 * 2 + total) / (2 * total) else 0

/-- The default progress message of `updateProgress`. -/
def progressMessage (current total : Nat) : String :=
  "Processing files: " ++ toString (roundPct current total) ++ "% (" ++
    toString current ++ "/" ++ toString total ++ ")"

/-- The UI effect of `loadAllDiffs`: one `updateProgress` call per loop
iteration, then the progress element is hidden. -/
def loadAllDiffsUI (counts : Nat → Nat) (st : UIState) : UIState :=
  let n := loadAllDiffsIterations counts
  let st' := (List.range n).foldl
    (fun s i => updateProgress s ("Loading all diffs... (" ++ toString (counts i) ++ " files)")) st
  { st' with progressVisible := false }

/-- The `try` block of `exportDiffs` as it acts on the UI state: one
`updateProgress (processed, total)` call per section.  `failAfter = none`
means the body runs to completion (archive generated and saved);
`failAfter = some k` means an exception is raised after `k` per-section
steps (`k = sections.length` models a failure in archive generation or
saving).  Returns the state at exit and whether the body succeeded. -/
def exportTryBody (sections : List FileSection) (failAfter : Option Nat)
    (st : UIState) : UIState × Bool :=
  let total := sections.length
  let run : Nat → UIState := fun k =>
    (List.range k).foldl (fun s i => updateProgress s (progressMessage (i + 1) total)) st
  match failAfter with
  | none => (run total, true)
  | some k => (run (min k total), false)

/-- `exportDiffs` on the UI state: `try` body, `catch` (log + `alert`)
on failure, and the `finally` block that re-enables the button and hides
the progress element on both paths. -/
def exportDiffsRun (sections : List FileSection) (failAfter : Option Nat)
    (st : UIState) : UIState :=
  let bodyOut := exportTryBody sections failAfter st
  let caught := if bodyOut.2 then bodyOut.1 else { bodyOut.1 with alerted := true }
  { caught with buttonDisabled := false, progressVisible := false }

/-- `handleExportClick`: disable the button, show the loading message,
run `loadAllDiffs`, then run `exportDiffs`. -/
def handleExportClick (sections : List FileSection) (counts : Nat → Nat)
    (failAfter : Option Nat) (st : UIState) : UIState :=
  let st1 := { st with buttonDisabled := true }
  let st2 := updateProgress st1 "Loading all diffs..."
  let st3 := loadAllDiffsUI counts st2
  exportDiffsRun sections failAfter st3

/-- A concrete ordinary section: path `a.txt`, one deletion line `foo`,
one addition line `bar`. -/
def sampleSectionA : FileSection :=
  { filePathText := some "a.txt", hasBinaryMarker := false, info := none,
    deletionLines := ["foo"], additionLines := ["bar"], allLines := [],
    loadEnv := fun _ =>
      { buttonTexts := [], linkTexts := [], deletionCount := 0,
        additionCount := 0, sectionText := "" },
    postDeletionLines := [], postAdditionLines := [], postSectionText := "" }

/-- A concrete ordinary section with the distinct path `b.txt`. -/
def sampleSectionB : FileSection :=
  { filePathText := some "b.txt", hasBinaryMarker := false, info := none,
    deletionLines := ["old"], additionLines := ["new"], allLines := [],
    loadEnv := fun _ =>
      { buttonTexts := [], linkTexts := [], deletionCount := 0,
        additionCount := 0, sectionText := "" },
    postDeletionLines := [], postAdditionLines := [], postSectionText := "" }

theorem getLastD_irrel {α : Type} (l : List α) (h : l ≠ []) (d1 d2 : α) :
    l.getLastD d1 = l.getLastD d2 := by
  cases l with
  | nil => exact absurd rfl h
  | cons x t => rw [List.getLastD_cons, List.getLastD_cons]

theorem splitChar_getLastD (sep : Char) (l : List Char) :
    (splitChar sep l).getLastD [] = if sep ∈ l then suffixAfterLast sep l else l := by
  induction l with
  | nil => simp [splitChar, suffixAfterLast]
  | cons c cs ih =>
    by_cases h : c = sep
    · subst h
      have hsplit : splitChar c (c :: cs) = [] :: splitChar c cs := by
        simp only [splitChar]
        rcases hs : splitChar c cs with _ | ⟨g, gs⟩
        · exact absurd hs (splitChar_ne_nil c cs)
        · simp
      rw [hsplit, List.getLastD_cons]
      rw [getLastD_irrel (splitChar c cs) (splitChar_ne_nil c cs) [] []] at ih ⊢
      rw [ih, if_pos (List.mem_cons_self c cs)]
      by_cases hm : c ∈ cs <;> simp [suffixAfterLast, hm]
    · rcases hs : splitChar sep cs with _ | ⟨g, gs⟩
      · exact absurd hs (splitChar_ne_nil sep cs)
      have hsplit : splitChar sep (c :: cs) = (c :: g) :: gs := by
        simp only [splitChar, hs, if_neg h]
      rw [hsplit, List.getLastD_cons]
      rw [hs] at ih
      by_cases hmem : sep ∈ cs
      · have hlen := (splitChar_length_gt_one_iff sep cs).mpr hmem
        rw [hs] at hlen
        have hgs : gs ≠ [] := by
          intro h0
          subst h0
          simp at hlen
        rw [getLastD_irrel gs hgs (c :: g) g]
        rw [List.getLastD_cons, if_pos hmem] at ih
        rw [ih, if_pos (List.mem_cons_of_mem c hmem)]
        simp [suffixAfterLast, hmem]
      · have hlen1 : ¬ (splitChar sep cs).length > 1 :=
          fun hgt => hmem ((splitChar_length_gt_one_iff sep cs).mp hgt)
        rw [hs] at hlen1
        have hgs : gs = [] := by
          rcases gs with _ | ⟨a, b⟩
          · rfl
          · simp at hlen1
        subst hgs
        rw [if_neg hmem] at ih
        have hg : g = cs := by simpa using ih
        rw [hg]
        have hnotmem : sep ∉ c :: cs := by
          intro hmc
          rcases List.mem_cons.mp hmc with hc | hc
          · exact h hc.symm
          · exact hmem hc
        rw [if_neg hnotmem]
        rfl

theorem mk_toList (s : String) : String.mk s.toList = s := by
  cases s
  rfl

theorem mk_eq_empty_iff (l : List Char) : String.mk l = "" ↔ l = [] := by
  constructor
  · intro h
    simpa using congrArg String.data h
  · intro h
    subst h
    rfl

/-- Claim C1: the Markdown formatter applies a fixed precedence, first
match wins — not-inline yields the view-externally message, then
too-large yields the unavailable message, then new-file yields the
Before placeholder plus an After fenced block, then an empty
before-and-after pair yields the no-textual-changes message, and every
other record yields fenced Before and After blocks tagged with the
extension; on the record for `app.py` with before `foo` and after `bar`
the output is exactly the stated document. -/
theorem createMarkdownContent_spec (d : DiffHunk) :
    (d.notInline = true →
      createMarkdownContent d =
        "# " ++ d.baseName ++ "\n\nDiff not available inline. Please view the file directly on GitHub.") ∧
    (d.notInline = false → d.tooLarge = true →
      createMarkdownContent d =
        "# " ++ d.baseName ++ "\n\nDiff too large to display on GitHub. Not available for export.") ∧
    (d.notInline = false → d.tooLarge = false → d.isNewFile = true →
      createMarkdownContent d =
        "# " ++ d.baseName ++ "\n\n## Before\nThis file did not exist before.\n\n## After\n```" ++
          d.extension ++ "\n" ++ d.after ++ "\n```\n") ∧
    (d.notInline = false → d.tooLarge = false → d.isNewFile = false →
      d.before = "" → d.after = "" →
      createMarkdownContent d =
        "# " ++ d.baseName ++ "\n\nNo textual changes, file is binary, or too large to display.") ∧
    (d.notInline = false → d.tooLarge = false → d.isNewFile = false →
      ¬ (d.before = "" ∧ d.after = "") →
      createMarkdownContent d =
        "# " ++ d.baseName ++ "\n\n## Before\n```" ++ d.extension ++ "\n" ++ d.before ++
          "\n```\n\n## After\n```" ++ d.extension ++ "\n" ++ d.after ++ "\n```\n") ∧
    createMarkdownContent
        { before := "foo", after := "bar", filePath := "src/app.py",
          extension := "py", baseName := "app.py" } =
      "# app.py\n\n## Before\n```py\nfoo\n```\n\n## After\n```py\nbar\n```\n" := by
  refine ⟨?_, ?_, ?_, ?_, ?_, ?_⟩
  · intro h1
    simp [createMarkdownContent, h1]
  · intro h1 h2
    simp [createMarkdownContent, h1, h2]
  · intro h1 h2 h3
    simp [createMarkdownContent, h1, h2, h3]
  · intro h1 h2 h3 h4 h5
    simp [createMarkdownContent, h1, h2, h3, h4, h5]
  · intro h1 h2 h3 h4
    rw [not_and_or] at h4
    simp only [createMarkdownContent, h1, h2, h3, Bool.false_eq_true, if_false]
    rcases h4 with h4 | h4 <;> simp [h4]
  · rfl

/-- Witness for C1 at a concrete not-inline record. -/
theorem createMarkdownContent_spec_witness :
    createMarkdownContent
        { before := "", after := "", filePath := "big.c", extension := "c",
          baseName := "big.c", notInline := true } =
      "# big.c\n\nDiff not available inline. Please view the file directly on GitHub." :=
  (createMarkdownContent_spec _).1 rfl

/-- Claim C2, counterexample: the claim demands an empty extension for
`.gitignore` (its only `.` is the first character), but the code splits
on `.` and returns the last part whenever any `.` is present, giving
`gitignore`. -/
theorem getFileExtension_gitignore_ne_empty :
    getFileExtension ".gitignore" = "gitignore" ∧ getFileExtension ".gitignore" ≠ "" := by
  constructor
  · rfl
  · decide

/-- Claim C2 (amended): for every path containing at least one `.` —
anywhere, including position 0 — the extension is the substring after
the final `.`; for paths with no `.` at all it is empty.  (A path like
`.gitignore` therefore gets extension `gitignore`, not the empty
string.) -/
theorem getFileExtension_spec (p : String) :
    getFileExtension p =
      if '.' ∈ p.toList then String.mk (suffixAfterLast '.' p.toList) else "" := by
  show (if (splitChar '.' p.toList).length > 1 then
          String.mk ((splitChar '.' p.toList).getLastD []) else "") = _
  by_cases h : '.' ∈ p.toList
  · rw [if_pos ((splitChar_length_gt_one_iff '.' p.toList).mpr h), if_pos h,
      splitChar_getLastD, if_pos h]
  · rw [if_neg (fun hgt => h ((splitChar_length_gt_one_iff '.' p.toList).mp hgt)), if_neg h]

/-- Claim C3: `getBaseName` returns the substring after the final `/`
when one exists and is non-empty, and the path unchanged otherwise —
both when the path has no `/` and when it ends with `/` (there the
substring after the final `/` is the empty string, which is falsy, so
the `|| filePath` fallback returns the whole path). -/
theorem getBaseName_spec (p : String) :
    getBaseName p =
      if '/' ∈ p.toList ∧ suffixAfterLast '/' p.toList ≠ [] then
        String.mk (suffixAfterLast '/' p.toList)
      else p := by
  show (if String.mk ((splitChar '/' p.toList).getLastD []) = "" then p
        else String.mk ((splitChar '/' p.toList).getLastD [])) = _
  rw [splitChar_getLastD]
  by_cases h : '/' ∈ p.toList
  · rw [if_pos h]
    by_cases hsuf : suffixAfterLast '/' p.toList = []
    · rw [if_pos ((mk_eq_empty_iff _).mpr hsuf), if_neg (fun hc => hc.2 hsuf)]
    · rw [if_neg (fun hc => hsuf ((mk_eq_empty_iff _).mp hc)), if_pos ⟨h, hsuf⟩]
  · rw [if_neg h]
    have hcond : ¬ ('/' ∈ p.toList ∧ suffixAfterLast '/' p.toList ≠ []) :=
      fun hc => h hc.1
    rw [if_neg hcond, mk_toList]
    exact ite_self p

theorem processDiff_loadEnv_indep (file : FileSection) (env' : Nat → SectionView)
    (hnew : isNewFile file.info = true) :
    processDiff { file with loadEnv := env' } = processDiff file := by
  have hnew' : isNewFile file.info = true := hnew
  rcases file with ⟨fpt, bin, info, del, add, all, env, pdel, padd, ptext⟩
  rcases fpt with _ | fp
  · rfl
  · have hinfo : isNewFile info = true := hnew'
    simp [processDiff, isBinaryFile, hinfo]

/-- Claim C4: a section carrying the binary/rendered marker is always
classified binary, whatever other markers (e.g. a new-file label) are
present: the record has empty before/after and no flag set, and the
formatter renders the no-textual-changes message for it. -/
theorem processDiff_binary_wins (file : FileSection) (fp : String)
    (hfp : file.filePathText = some fp) (hne : ¬ jsTrim fp = "")
    (hbin : file.hasBinaryMarker = true) :
    ∃ d, processDiff file = some d ∧ d.before = "" ∧ d.after = "" ∧
      d.tooLarge = false ∧ d.notInline = false ∧ d.isNewFile = false ∧
      createMarkdownContent d =
        "# " ++ d.baseName ++ "\n\nNo textual changes, file is binary, or too large to display." := by
  refine ⟨{ before := "", after := "", filePath := jsTrim fp,
            extension := getFileExtension (jsTrim fp), baseName := getBaseName (jsTrim fp) },
          ?_, rfl, rfl, rfl, rfl, rfl, ?_⟩
  · simp [processDiff, hfp, hne, isBinaryFile, hbin]
  · simp [createMarkdownContent]

/-- Witness for C4: a binary image section that simultaneously carries a
new-file label is still rendered with the no-textual-changes message. -/
theorem processDiff_binary_wins_witness :
    ∃ d, processDiff
        { filePathText := some "logo.png", hasBinaryMarker := true,
          info := some { labelText := some "New file", text := some "logo.png new file" },
          deletionLines := [], additionLines := [], allLines := ["x"],
          loadEnv := fun _ =>
            { buttonTexts := [], linkTexts := [], deletionCount := 0,
              additionCount := 0, sectionText := "" },
          postDeletionLines := [], postAdditionLines := [], postSectionText := "" } = some d ∧
      d.before = "" ∧ d.after = "" ∧
      d.tooLarge = false ∧ d.notInline = false ∧ d.isNewFile = false ∧
      createMarkdownContent d =
        "# " ++ d.baseName ++ "\n\nNo textual changes, file is binary, or too large to display." :=
  processDiff_binary_wins _ "logo.png" rfl (by decide) rfl

/-- Claim C5: a non-binary section classified new-file produces a record
whose `before` is the fixed placeholder, whose `after` is all content
lines joined by newlines in document order, and whose `isNewFile` flag
is set. -/
theorem processDiff_newfile_record (file : FileSection) (fp : String)
    (hfp : file.filePathText = some fp) (hne : ¬ jsTrim fp = "")
    (hbin : file.hasBinaryMarker = false)
    (hnew : isNewFile file.info = true) :
    processDiff file = some
      { before := "This file did not exist before.",
        after := joinLines file.allLines,
        filePath := jsTrim fp,
        extension := getFileExtension (jsTrim fp), baseName := getBaseName (jsTrim fp),
        tooLarge := false, notInline := false, isNewFile := true } := by
  simp [processDiff, hfp, hne, isBinaryFile, hbin, hnew]

/-- Witness for C5: a new-file README with content lines
`["# Title", "body"]` yields `after = "# Title\nbody"` and the
placeholder `before`. -/
theorem processDiff_newfile_record_witness :
    processDiff
        { filePathText := some "README.md", hasBinaryMarker := false,
          info := some { labelText := some "New file", text := some "README.md" },
          deletionLines := [], additionLines := [], allLines := ["# Title", "body"],
          loadEnv := fun _ =>
            { buttonTexts := [], linkTexts := [], deletionCount := 0,
              additionCount := 0, sectionText := "" },
          postDeletionLines := [], postAdditionLines := [], postSectionText := "" } = some
      { before := "This file did not exist before.",
        after := "# Title\nbody",
        filePath := "README.md",
        extension := "md", baseName := "README.md",
        tooLarge := false, notInline := false, isNewFile := true } :=
  processDiff_newfile_record _ "README.md" rfl (by decide) rfl rfl

/-- Claim C10: every record produced with `isNewFile = true` has both
`tooLarge` and `notInline` unset, the formatter therefore renders it via
the new-file branch (not the higher-precedence ones), and the
classification is independent of the load-diff sub-protocol's
environment (the sub-protocol is never consulted for a new-file
section). -/
theorem processDiff_newfile_invariant (file : FileSection) (d : DiffHunk)
    (hd : processDiff file = some d) (hnew : d.isNewFile = true) :
    d.tooLarge = false ∧ d.notInline = false ∧
    createMarkdownContent d =
      "# " ++ d.baseName ++ "\n\n## Before\nThis file did not exist before.\n\n## After\n```" ++
        d.extension ++ "\n" ++ d.after ++ "\n```\n" ∧
    ∀ env', processDiff { file with loadEnv := env' } = processDiff file := by
  rcases file with ⟨fpt, bin, info, del, add, all, env, pdel, padd, ptext⟩
  rcases fpt with _ | fp
  · simp [processDiff] at hd
  · by_cases htrim : jsTrim fp = ""
    · simp [processDiff, htrim] at hd
    · by_cases hbin : bin = true
      · have hpd : processDiff
            ⟨some fp, bin, info, del, add, all, env, pdel, padd, ptext⟩ =
            some { before := "", after := "", filePath := jsTrim fp,
                   extension := getFileExtension (jsTrim fp),
                   baseName := getBaseName (jsTrim fp) } := by
          simp [processDiff, htrim, isBinaryFile, hbin]
        rw [hpd, Option.some.injEq] at hd
        rw [← hd] at hnew
        simp at hnew
      · rw [Bool.not_eq_true] at hbin
        by_cases hinfo : isNewFile info = true
        · have hpd : processDiff
              ⟨some fp, bin, info, del, add, all, env, pdel, padd, ptext⟩ =
              some { before := "This file did not exist before.",
                     after := joinLines all, filePath := jsTrim fp,
                     extension := getFileExtension (jsTrim fp),
                     baseName := getBaseName (jsTrim fp),
                     tooLarge := false, notInline := false, isNewFile := true } := by
            simp [processDiff, htrim, isBinaryFile, hbin, hinfo]
          rw [hpd, Option.some.injEq] at hd
          subst hd
          refine ⟨rfl, rfl, ?_, ?_⟩
          · simp [createMarkdownContent]
          · intro env'
            exact processDiff_loadEnv_indep _ env' hinfo
        · rw [Bool.not_eq_true] at hinfo
          by_cases hempty : (del.isEmpty && add.isEmpty) = true
          · have hpd : processDiff
                ⟨some fp, bin, info, del, add, all, env, pdel, padd, ptext⟩ =
                some { before := joinLines pdel, after := joinLines padd,
                       filePath := jsTrim fp,
                       extension := getFileExtension (jsTrim fp),
                       baseName := getBaseName (jsTrim fp),
                       tooLarge := decide (tryLoadLargeDiff env = LoadResult.tooLarge) &&
                         (jsIncludes (jsToLower ptext) "diff is too large to display" ||
                          jsIncludes (jsToLower ptext) "too large to render"),
                       notInline := decide (tryLoadLargeDiff env = LoadResult.notInline),
                       isNewFile := false } := by
              simp [processDiff, htrim, isBinaryFile, hbin, hinfo, hempty]
            rw [hpd, Option.some.injEq] at hd
            rw [← hd] at hnew
            simp at hnew
          · rw [Bool.not_eq_true] at hempty
            have hpd : processDiff
                ⟨some fp, bin, info, del, add, all, env, pdel, padd, ptext⟩ =
                some { before := joinLines del, after := joinLines add,
                       filePath := jsTrim fp,
                       extension := getFileExtension (jsTrim fp),
                       baseName := getBaseName (jsTrim fp),
                       tooLarge := false, notInline := false, isNewFile := false } := by
              simp [processDiff, htrim, isBinaryFile, hbin, hinfo, hempty]
            rw [hpd, Option.some.injEq] at hd
            rw [← hd] at hnew
            simp at hnew

/-- Witness for C10 at the concrete new-file README section. -/
theorem processDiff_newfile_invariant_witness :
    ({ before := "This file did not exist before.", after := "# Title\nbody",
       filePath := "README.md", extension := "md", baseName := "README.md",
       tooLarge := false, notInline := false, isNewFile := true } : DiffHunk).tooLarge = false ∧
    ({ before := "This file did not exist before.", after := "# Title\nbody",
       filePath := "README.md", extension := "md", baseName := "README.md",
       tooLarge := false, notInline := false, isNewFile := true } : DiffHunk).notInline = false ∧
    createMarkdownContent
      { before := "This file did not exist before.", after := "# Title\nbody",
        filePath := "README.md", extension := "md", baseName := "README.md",
        tooLarge := false, notInline := false, isNewFile := true } =
      "# README.md\n\n## Before\nThis file did not exist before.\n\n## After\n```md\n# Title\nbody\n```\n" ∧
    ∀ env', processDiff
      { filePathText := some "README.md", hasBinaryMarker := false,
        info := some { labelText := some "New file", text := some "README.md" },
        deletionLines := [], additionLines := [], allLines := ["# Title", "body"],
        loadEnv := env',
        postDeletionLines := [], postAdditionLines := [], postSectionText := "" } = processDiff
      { filePathText := some "README.md", hasBinaryMarker := false,
        info := some { labelText := some "New file", text := some "README.md" },
        deletionLines := [], additionLines := [], allLines := ["# Title", "body"],
        loadEnv := fun _ =>
          { buttonTexts := [], linkTexts := [], deletionCount := 0,
            additionCount := 0, sectionText := "" },
        postDeletionLines := [], postAdditionLines := [], postSectionText := "" } := by
  have h := processDiff_newfile_invariant
    { filePathText := some "README.md", hasBinaryMarker := false,
      info := some { labelText := some "New file", text := some "README.md" },
      deletionLines := [], additionLines := [], allLines := ["# Title", "body"],
      loadEnv := fun _ =>
        { buttonTexts := [], linkTexts := [], deletionCount := 0,
          additionCount := 0, sectionText := "" },
      postDeletionLines := [], postAdditionLines := [], postSectionText := "" }
    { before := "This file did not exist before.", after := "# Title\nbody",
      filePath := "README.md", extension := "md", baseName := "README.md",
      tooLarge := false, notInline := false, isNewFile := true }
    (by decide) rfl
  exact ⟨h.1, h.2.1, h.2.2.1, h.2.2.2⟩

theorem tryLoadAux_succ (env : Nat → SectionView) (attempt fuel : Nat) :
    tryLoadAux env attempt (fuel + 1) =
      if !(env attempt).hasLoadButton && (env attempt).hasLoadLink then LoadResult.notInline
      else if (env attempt).hasLoadButton then tryLoadAux env (attempt + 1) fuel
      else if (env attempt).deletionCount > 0 || (env attempt).additionCount > 0 then
        LoadResult.loaded
      else if jsIncludes (jsToLower (env attempt).sectionText) "diff is too large to display" then
        LoadResult.tooLarge
      else tryLoadAux env (attempt + 1) fuel := rfl

theorem tryLoadAux_all_button (env : Nat → SectionView) (fuel : Nat) :
    ∀ a, (∀ i, a ≤ i → i < a + fuel → (env i).hasLoadButton = true) →
      tryLoadAux env a fuel = LoadResult.tooLarge := by
  induction fuel with
  | zero =>
    intro a _
    rfl
  | succ fuel ih =>
    intro a h
    have hb : (env a).hasLoadButton = true := h a (Nat.le_refl a) (by omega)
    rw [tryLoadAux_succ, hb]
    simp only [Bool.not_true, Bool.false_and, Bool.false_eq_true, if_false, if_true]
    exact ih (a + 1) (fun i h1 h2 => h i (by omega) (by omega))

theorem tryLoadAux_agree (fuel : Nat) :
    ∀ (a : Nat) (env env' : Nat → SectionView),
      (∀ i, a ≤ i → i < a + fuel → env i = env' i) →
      tryLoadAux env a fuel = tryLoadAux env' a fuel := by
  induction fuel with
  | zero =>
    intro a env env' _
    rfl
  | succ fuel ih =>
    intro a env env' h
    have he : env a = env' a := h a (Nat.le_refl a) (by omega)
    have hrec : tryLoadAux env (a + 1) fuel = tryLoadAux env' (a + 1) fuel :=
      ih (a + 1) env env' (fun i h1 h2 => h i (by omega) (by omega))
    rw [tryLoadAux_succ, tryLoadAux_succ, he, hrec]

/-- Claim C7: the load-diff sub-protocol makes at most 5 attempts (its
result depends only on the first five observations) and resolves to one
of three outcomes: `notInline` immediately when a keyword matches only a
navigation link and no button/summary control; `loaded` when, with no
control found, deletion- or addition-marked lines are present; and
`tooLarge` as the conservative fallback after 5 attempts in which
neither resolved (e.g. a control is found and clicked every time). -/
theorem tryLoadLargeDiff_spec (env : Nat → SectionView) :
    ((env 0).hasLoadButton = false → (env 0).hasLoadLink = true →
      tryLoadLargeDiff env = LoadResult.notInline) ∧
    ((env 0).hasLoadButton = false → (env 0).hasLoadLink = false →
      ((env 0).deletionCount > 0 || (env 0).additionCount > 0) = true →
      tryLoadLargeDiff env = LoadResult.loaded) ∧
    ((∀ i, i < 5 → (env i).hasLoadButton = true) →
      tryLoadLargeDiff env = LoadResult.tooLarge) ∧
    (∀ env', (∀ i, i < 5 → env i = env' i) →
      tryLoadLargeDiff env = tryLoadLargeDiff env') := by
  refine ⟨?_, ?_, ?_, ?_⟩
  · intro h1 h2
    show tryLoadAux env 0 (4 + 1) = LoadResult.notInline
    rw [tryLoadAux_succ, h1, h2]
    rfl
  · intro h1 h2 h3
    show tryLoadAux env 0 (4 + 1) = LoadResult.loaded
    rw [tryLoadAux_succ, h1, h2, h3]
    rfl
  · intro h
    exact tryLoadAux_all_button env 5 0 (fun i _ h2 => h i (by omega))
  · intro env' h
    exact tryLoadAux_agree 5 0 env env' (fun i _ h2 => h i (by omega))

/-- Witness for C7: a section offering only a navigation link for its
load keyword resolves to `notInline`. -/
theorem tryLoadLargeDiff_spec_witness :
    tryLoadLargeDiff (fun _ =>
      { buttonTexts := [], linkTexts := ["Load diff"], deletionCount := 0,
        additionCount := 0, sectionText := "" }) = LoadResult.notInline :=
  (tryLoadLargeDiff_spec _).1 (by decide) (by decide)

theorem loadAllDiffsAux_succ (counts : Nat → Nat) (l s i fuel : Nat) :
    loadAllDiffsAux counts l s i (fuel + 1) =
      if 3 ≤ (if counts i = l then s + 1 else 0) then 1
      else 1 + loadAllDiffsAux counts (counts i) (if counts i = l then s + 1 else 0) (i + 1) fuel :=
  rfl

theorem loadAllDiffsAux_le (counts : Nat → Nat) (fuel : Nat) :
    ∀ l s i, loadAllDiffsAux counts l s i fuel ≤ fuel := by
  induction fuel with
  | zero =>
    intro l s i
    exact Nat.le_refl 0
  | succ fuel ih =>
    intro l s i
    rw [loadAllDiffsAux_succ]
    by_cases hcl : counts i = l
    · rw [if_pos hcl]
      by_cases h3 : 3 ≤ s + 1
      · rw [if_pos h3]
        omega
      · rw [if_neg h3]
        have := ih (counts i) (s + 1) (i + 1)
        omega
    · rw [if_neg hcl, if_neg (by omega)]
      have := ih (counts i) 0 (i + 1)
      omega

theorem loadAllDiffsAux_growing (counts : Nat → Nat)
    (hg : ∀ j, counts j < counts (j + 1)) (fuel : Nat) :
    ∀ i s, loadAllDiffsAux counts (counts i) s (i + 1) fuel = fuel := by
  induction fuel with
  | zero =>
    intro i s
    rfl
  | succ fuel ih =>
    intro i s
    rw [loadAllDiffsAux_succ]
    have hne : counts (i + 1) ≠ counts i := Nat.ne_of_gt (hg i)
    rw [if_neg hne, if_neg (by omega)]
    rw [ih (i + 1) 0]
    omega

theorem loadAllDiffsAux_const (counts : Nat → Nat) (c : Nat) (hc : ∀ j, counts j = c)
    (fuel : Nat) :
    ∀ s i, s ≤ 2 → loadAllDiffsAux counts c s i fuel = min (3 - s) fuel := by
  induction fuel with
  | zero =>
    intro s i _
    simp [loadAllDiffsAux]
  | succ fuel ih =>
    intro s i hs
    rw [loadAllDiffsAux_succ, hc i, if_pos rfl]
    by_cases h3 : 3 ≤ s + 1
    · rw [if_pos h3]
      omega
    · rw [if_neg h3, ih (s + 1) (i + 1) (by omega)]
      omega

/-- Claim C8: the page-loader convergence loop always executes at most
the configured 50 iterations — exactly 50 when the section count grows
on every observation, so stabilization never triggers — and it stops
early as soon as the count has been unchanged for 3 consecutive
observations: with a constant count it stops after 3 iterations (count 0,
matching the initial `lastFileCount = 0`) or 4 iterations (non-zero
count), far below the ceiling. -/
theorem loadAllDiffs_termination (counts : Nat → Nat) :
    loadAllDiffsIterations counts ≤ 50 ∧
    ((∀ j, counts j < counts (j + 1)) → loadAllDiffsIterations counts = 50) ∧
    (∀ c, (∀ j, counts j = c) →
      loadAllDiffsIterations counts = if c = 0 then 3 else 4) := by
  refine ⟨loadAllDiffsAux_le counts maxTries 0 0 0, ?_, ?_⟩
  · intro hg
    show loadAllDiffsAux counts 0 0 0 (49 + 1) = 50
    rw [loadAllDiffsAux_succ]
    rw [if_neg (by split <;> omega), loadAllDiffsAux_growing counts hg 49 0]
  · intro c hc
    show loadAllDiffsAux counts 0 0 0 (49 + 1) = if c = 0 then 3 else 4
    rw [loadAllDiffsAux_succ, hc 0]
    by_cases h0 : c = 0
    · subst h0
      rw [if_pos rfl, if_neg (by omega),
        loadAllDiffsAux_const counts 0 hc 49 (0 + 1) (0 + 1) (by omega)]
      decide
    · rw [if_neg h0, if_neg (by omega),
        loadAllDiffsAux_const counts c hc 49 0 (0 + 1) (by omega)]
      rw [if_neg h0]
      decide

/-- Witness for C8: with a section count frozen at 7, the loop runs
exactly 4 iterations, and that is within the ceiling of 50. -/
theorem loadAllDiffs_termination_witness :
    loadAllDiffsIterations (fun _ => 7) ≤ 50 ∧
    loadAllDiffsIterations (fun _ => 7) = 4 := by
  have h := loadAllDiffs_termination (fun _ => 7)
  have h7 := h.2.2 7 (fun _ => rfl)
  exact ⟨h.1, by simpa using h7⟩

/-- Claim C9: on every exit path of a triggered export run — normal
completion (`failAfter = none`) or an exception raised at any step of
the export body, including archive generation and saving
(`failAfter = some k`) — the trigger control is re-enabled and the
progress element is hidden before the run ends (`finally` semantics). -/
theorem handleExportClick_resets_ui (sections : List FileSection) (counts : Nat → Nat)
    (failAfter : Option Nat) (st : UIState) :
    (handleExportClick sections counts failAfter st).buttonDisabled = false ∧
    (handleExportClick sections counts failAfter st).progressVisible = false :=
  ⟨rfl, rfl⟩

theorem processDiff_isSome_of_validPath (s : FileSection) (h : validPath s = true) :
    (processDiff s).isSome = true := by
  rcases hf : s.filePathText with _ | t
  · simp [validPath, hf] at h
  · simp only [validPath, hf, ne_eq, decide_eq_true_eq] at h
    simp only [processDiff, hf, Option.map_some']
    rw [if_neg h]
    split_ifs <;> rfl

theorem processDiff_eq_some_recordOf (s : FileSection) (h : validPath s = true) :
    processDiff s = some (recordOf s) := by
  rcases hpd : processDiff s with _ | d
  · have hs := processDiff_isSome_of_validPath s h
    rw [hpd] at hs
    simp at hs
  · unfold recordOf
    rw [hpd]
    rfl

theorem entryName_inj (b1 b2 : String)
    (h : "diffs/" ++ b1 ++ ".md" = "diffs/" ++ b2 ++ ".md") : b1 = b2 := by
  have h' := congrArg String.data h
  simp only [String.data_append] at h'
  exact String.ext (List.append_cancel_left (List.append_cancel_right h'))

theorem exportEntries_go (sections : List FileSection) :
    ∀ acc : List (String × String),
      (∀ s ∈ sections, validPath s = true) →
      (sections.map (fun s => (recordOf s).baseName)).Nodup →
      (∀ s ∈ sections,
        ¬ ("diffs/" ++ (recordOf s).baseName ++ ".md") ∈ acc.map Prod.fst) →
      sections.foldl
        (fun acc s =>
          match processDiff s with
          | none => acc
          | some d =>
            addFile acc ("diffs/" ++ d.baseName ++ ".md") (createMarkdownContent d)) acc =
      acc ++ sections.map (fun s =>
        ("diffs/" ++ (recordOf s).baseName ++ ".md", createMarkdownContent (recordOf s))) := by
  induction sections with
  | nil =>
    intro acc _ _ _
    simp
  | cons s rest ih =>
    intro acc hvalid hnodup hdisj
    have hps : processDiff s = some (recordOf s) :=
      processDiff_eq_some_recordOf s (hvalid s (List.mem_cons_self s rest))
    simp only [List.foldl_cons, hps]
    have hanyf :
        (acc.any fun e => e.1 = "diffs/" ++ (recordOf s).baseName ++ ".md") = false := by
      rw [List.any_eq_false]
      intro x hx
      simp only [decide_eq_true_eq]
      intro hx1
      exact hdisj s (List.mem_cons_self s rest)
        (by rw [← hx1]; exact List.mem_map_of_mem Prod.fst hx)
    have haddf : addFile acc ("diffs/" ++ (recordOf s).baseName ++ ".md")
        (createMarkdownContent (recordOf s)) =
        acc ++ [("diffs/" ++ (recordOf s).baseName ++ ".md",
                 createMarkdownContent (recordOf s))] := by
      simp [addFile, hanyf]
    rw [haddf]
    have hrest := ih (acc ++
        [("diffs/" ++ (recordOf s).baseName ++ ".md", createMarkdownContent (recordOf s))])
      (fun s' hs' => hvalid s' (List.mem_cons_of_mem s hs'))
      ((List.nodup_cons.mp hnodup).2)
      ?_
    · rw [hrest]
      simp
    · intro s' hs' hmem
      rw [List.map_append, List.mem_append] at hmem
      rcases hmem with hmem | hmem
      · exact hdisj s' (List.mem_cons_of_mem s hs') hmem
      · simp only [List.map_cons, List.map_nil, List.mem_singleton] at hmem
        have hb : (recordOf s').baseName = (recordOf s).baseName := entryName_inj _ _ hmem
        have hmem2 : (recordOf s).baseName ∈
            List.map (fun s => (recordOf s).baseName) rest := by
          rw [← hb]
          exact List.mem_map_of_mem _ hs'
        exact (List.nodup_cons.mp hnodup).1 hmem2

/-- Claim C6, counterexample: two sections presented with the same path
`a.txt` produce an archive with ONE entry (the second write overwrites
the first, as archive entry names are keys), not two. -/
theorem exportEntries_collision :
    (exportEntries [sampleSectionA, sampleSectionA]).length = 1 ∧
    ¬ (exportEntries [sampleSectionA, sampleSectionA]).length = 2 := by
  decide

/-- Claim C6 (amended): for every fixed ordered list of N sections each
of which yields a record (a non-empty trimmed file path) and whose
derived base names are pairwise distinct, the archive contains exactly N
entries named `diffs/<baseName>.md`, in the same document order, each
with the formatter's output for that section's record.  (Sections with
no usable path are skipped, and sections sharing a base name overwrite
one entry, so the hypotheses are necessary.) -/
theorem exportEntries_deterministic (sections : List FileSection)
    (hvalid : ∀ s ∈ sections, validPath s = true)
    (hnodup : (sections.map (fun s => (recordOf s).baseName)).Nodup) :
    exportEntries sections =
      sections.map (fun s =>
        ("diffs/" ++ (recordOf s).baseName ++ ".md", createMarkdownContent (recordOf s))) ∧
    (exportEntries sections).length = sections.length := by
  have h : exportEntries sections =
      sections.map (fun s =>
        ("diffs/" ++ (recordOf s).baseName ++ ".md", createMarkdownContent (recordOf s))) := by
    have hg := exportEntries_go sections [] hvalid hnodup (by simp)
    simpa [exportEntries] using hg
  exact ⟨h, by rw [h, List.length_map]⟩

/-- Witness for C6 at two concrete sections with distinct paths. -/
theorem exportEntries_deterministic_witness :
    exportEntries [sampleSectionA, sampleSectionB] =
      [sampleSectionA, sampleSectionB].map (fun s =>
        ("diffs/" ++ (recordOf s).baseName ++ ".md", createMarkdownContent (recordOf s))) ∧
    (exportEntries [sampleSectionA, sampleSectionB]).length =
      ([sampleSectionA, sampleSectionB] : List FileSection).length :=
  exportEntries_deterministic [sampleSectionA, sampleSectionB] (by decide) (by decide)

end PRDiff
